import Mathlib

/-
Verification of the resilience/consistency layer of the realtime agent
service: circuit breaker + retrying LLM client (runtime/shared/llm_provider.py),
tiered cache (runtime/shared/cache_service.py), and the append-oriented
context snapshot log (runtime/repositories/context_repository.py).

The Python source is shallowly embedded: each class becomes a structure,
each method a pure function threading the mutated object explicitly, and
every read of the wall clock (`time.monotonic()` / `time.time()`) becomes
an explicit `now : Int` argument.
-/

namespace Realtime

/-! ## Circuit breaker (llm_provider.py, class CircuitBreaker) -/

/-- Embeds `CircuitState` (llm_provider.py): CLOSED / OPEN / HALF_OPEN. -/
inductive CircuitState
  | closed
  | opened
  | halfOpen
  deriving DecidableEq, Repr

/-- Embeds the `CircuitBreaker` dataclass.  Field `state` is the stored
`_state`, `last_failure_time` the stored monotonic timestamp (modelled as
`Int`). -/
structure CircuitBreaker where
  failure_threshold : Nat := 5
  recovery_timeout_seconds : Int := 60
  failure_count : Nat := 0
  state : CircuitState := CircuitState.closed
  last_failure_time : Int := 0
  deriving DecidableEq, Repr

/-- Embeds the `state` property getter, whose read has a side effect:
while stored state is OPEN and `now - last_failure_time >= recovery_timeout`,
the stored state mutates to HALF_OPEN before being returned. -/
def CircuitBreaker.readState (cb : CircuitBreaker) (now : Int) :
    CircuitState × CircuitBreaker :=
  if cb.state = CircuitState.opened ∧
      now - cb.last_failure_time ≥ cb.recovery_timeout_seconds then
    (CircuitState.halfOpen, { cb with state := CircuitState.halfOpen })
  else
    (cb.state, cb)

/-- Embeds `CircuitBreaker.record_success`: reset the consecutive failure
count and force CLOSED. -/
def CircuitBreaker.record_success (cb : CircuitBreaker) : CircuitBreaker :=
  { cb with failure_count := 0, state := CircuitState.closed }

/-- Embeds `CircuitBreaker.record_failure`: increment the count, stamp the
failure time, and open the breaker once the count reaches the threshold. -/
def CircuitBreaker.record_failure (cb : CircuitBreaker) (now : Int) :
    CircuitBreaker :=
  let cb' := { cb with failure_count := cb.failure_count + 1,
                       last_failure_time := now }
  if cb'.failure_count ≥ cb'.failure_threshold then
    { cb' with state := CircuitState.opened }
  else
    cb'

/-- Embeds `CircuitBreaker.allow_request`: read the state (with its
OPEN→HALF_OPEN side effect) and allow when CLOSED or HALF_OPEN. -/
def CircuitBreaker.allow_request (cb : CircuitBreaker) (now : Int) :
    Bool × CircuitBreaker :=
  let (current, cb') := cb.readState now
  (current = CircuitState.closed ∨ current = CircuitState.halfOpen, cb')

/-- A fresh breaker with the given configuration (dataclass defaults for the
mutable fields). -/
def mkBreaker (threshold : Nat) (timeout : Int) : CircuitBreaker :=
  { failure_threshold := threshold, recovery_timeout_seconds := timeout }

/-- One externally scripted breaker event: a recorded failure at monotonic
time `t`, or a recorded success. -/
inductive BreakerEvent
  | failure (t : Int)
  | success
  deriving DecidableEq, Repr

/-- Apply one scripted event to the breaker. -/
def applyEvent (cb : CircuitBreaker) : BreakerEvent → CircuitBreaker
  | BreakerEvent.failure t => cb.record_failure t
  | BreakerEvent.success => cb.record_success

/-- Apply a sequence of scripted events left to right. -/
def applyTrace (cb : CircuitBreaker) (es : List BreakerEvent) : CircuitBreaker :=
  es.foldl applyEvent cb

/-- `n` consecutive failures, all stamped at time `t`. -/
def failures (n : Nat) (t : Int) : List BreakerEvent :=
  List.replicate n (BreakerEvent.failure t)

theorem applyTrace_append (cb : CircuitBreaker) (l₁ l₂ : List BreakerEvent) :
    applyTrace cb (l₁ ++ l₂) = applyTrace (applyTrace cb l₁) l₂ :=
  List.foldl_append _ _ _ _

theorem applyTrace_cons (cb : CircuitBreaker) (e : BreakerEvent)
    (es : List BreakerEvent) :
    applyTrace cb (e :: es) = applyTrace (applyEvent cb e) es := rfl

theorem record_failure_threshold (cb : CircuitBreaker) (t : Int) :
    (cb.record_failure t).failure_threshold = cb.failure_threshold := by
  unfold CircuitBreaker.record_failure
  dsimp only
  split <;> rfl

theorem record_failure_count (cb : CircuitBreaker) (t : Int) :
    (cb.record_failure t).failure_count = cb.failure_count + 1 := by
  unfold CircuitBreaker.record_failure
  dsimp only
  split <;> rfl

theorem record_failure_state (cb : CircuitBreaker) (t : Int) :
    (cb.record_failure t).state =
      (if cb.failure_count + 1 ≥ cb.failure_threshold then CircuitState.opened
       else cb.state) := by
  unfold CircuitBreaker.record_failure
  dsimp only
  split <;> rfl

/-- State and count after a nonempty run of failures only. -/
theorem failures_state (n : Nat) (t : Int) (hn : 1 ≤ n) :
    ∀ cb : CircuitBreaker,
    (applyTrace cb (failures n t)).failure_count = cb.failure_count + n ∧
    (applyTrace cb (failures n t)).failure_threshold = cb.failure_threshold ∧
    (applyTrace cb (failures n t)).state =
      (if cb.failure_count + n ≥ cb.failure_threshold then CircuitState.opened
       else cb.state) := by
  induction n with
  | zero => omega
  | succ m ih =>
    intro cb
    have hsplit : applyTrace cb (failures (m + 1) t) =
        applyTrace (cb.record_failure t) (failures m t) := by
      rw [failures, List.replicate_succ]; rfl
    rw [hsplit]
    have hcnt := record_failure_count cb t
    have hthr := record_failure_threshold cb t
    have hst := record_failure_state cb t
    rcases Nat.eq_zero_or_pos m with hm | hm
    · subst hm
      have hnil : applyTrace (cb.record_failure t) (failures 0 t) =
          cb.record_failure t := rfl
      rw [hnil]
      exact ⟨hcnt, hthr, hst⟩
    · have ih' := ih hm (cb.record_failure t)
      rw [hcnt, hthr] at ih'
      refine ⟨by rw [ih'.1]; omega, ih'.2.1, ?_⟩
      rw [ih'.2.2, hst]
      by_cases hc : cb.failure_count + (m + 1) ≥ cb.failure_threshold
      · rw [if_pos hc, if_pos (by omega)]
      · rw [if_neg hc, if_neg (by omega), if_neg (by omega)]

/-- One event preserves the threshold and the OPEN-implies-count invariant. -/
theorem step_invariant (cb : CircuitBreaker) (e : BreakerEvent)
    (hinv : cb.state = CircuitState.opened →
      cb.failure_count ≥ cb.failure_threshold) :
    (applyEvent cb e).failure_threshold = cb.failure_threshold ∧
    ((applyEvent cb e).state = CircuitState.opened →
      (applyEvent cb e).failure_count ≥ (applyEvent cb e).failure_threshold) := by
  rcases e with t | _
  · have hev : applyEvent cb (BreakerEvent.failure t) = cb.record_failure t := rfl
    rw [hev]
    refine ⟨record_failure_threshold cb t, ?_⟩
    rw [record_failure_state cb t, record_failure_count cb t,
      record_failure_threshold cb t]
    by_cases hc : cb.failure_count + 1 ≥ cb.failure_threshold
    · intro _; omega
    · rw [if_neg hc]
      intro hst
      have := hinv hst
      omega
  · refine ⟨rfl, ?_⟩
    intro hst
    exact absurd hst (by simp [applyEvent, CircuitBreaker.record_success])

/-- The breaker operations never change the configured threshold, and
OPEN is only ever stored with the count at/above the threshold. -/
theorem open_invariant (es : List BreakerEvent) :
    ∀ cb : CircuitBreaker,
    (cb.state = CircuitState.opened → cb.failure_count ≥ cb.failure_threshold) →
    (applyTrace cb es).failure_threshold = cb.failure_threshold ∧
    ((applyTrace cb es).state = CircuitState.opened →
      (applyTrace cb es).failure_count ≥ (applyTrace cb es).failure_threshold) := by
  induction es with
  | nil => exact fun cb hinv => ⟨rfl, hinv⟩
  | cons e rest ih =>
    intro cb hinv
    rw [applyTrace_cons]
    have hstep := step_invariant cb e hinv
    have := ih (applyEvent cb e) hstep.2
    exact ⟨by rw [this.1, hstep.1], this.2⟩

/-- C5: from the initial CLOSED breaker, exactly `threshold` consecutive
failures open it; `threshold-1` failures, a success, then `threshold-1` more
failures leave it NOT open (the success resets the consecutive count); and
along every event trace from the initial breaker, a stored OPEN state implies
the failure count is at/above the threshold. -/
theorem breakerThresholdResetInvariant (th : Nat) (tmo t t' : Int)
    (es : List BreakerEvent) (hth : 1 ≤ th) :
    (applyTrace (mkBreaker th tmo) (failures th t)).state = CircuitState.opened ∧
    (applyTrace (mkBreaker th tmo)
      (failures (th - 1) t ++ [BreakerEvent.success] ++ failures (th - 1) t')).state ≠
      CircuitState.opened ∧
    ((applyTrace (mkBreaker th tmo) es).state = CircuitState.opened →
      (applyTrace (mkBreaker th tmo) es).failure_count ≥ th) := by
  refine ⟨?_, ?_, ?_⟩
  · have h := (failures_state th t hth (mkBreaker th tmo)).2.2
    rw [h]
    show (if (0 : Nat) + th ≥ th then CircuitState.opened else CircuitState.closed) = _
    rw [if_pos (by omega)]
  · rcases Nat.eq_zero_or_pos (th - 1) with h0 | hpos
    · rw [h0]
      simp only [failures, List.replicate, List.nil_append]
      intro hcon
      simp [applyTrace, applyEvent, CircuitBreaker.record_success] at hcon
    · rw [applyTrace_append, applyTrace_append]
      set cb1 := applyTrace (mkBreaker th tmo) (failures (th - 1) t) with hcb1
      have h1 := failures_state (th - 1) t hpos (mkBreaker th tmo)
      rw [← hcb1] at h1
      have hsucc : applyTrace cb1 [BreakerEvent.success] = cb1.record_success := rfl
      rw [hsucc]
      have h2 := failures_state (th - 1) t' hpos cb1.record_success
      rw [h2.2.2]
      have hc : cb1.record_success.failure_count = 0 := rfl
      have hthr : cb1.record_success.failure_threshold = cb1.failure_threshold := rfl
      rw [hc, hthr, h1.2.1]
      show (if 0 + (th - 1) ≥ (mkBreaker th tmo).failure_threshold then _ else _) ≠ _
      rw [if_neg (by show ¬ (0 + (th - 1) ≥ th); omega)]
      intro hcon
      simp [CircuitBreaker.record_success] at hcon
  · intro hopen
    have := open_invariant es (mkBreaker th tmo)
      (by intro h; exact absurd h (by simp [mkBreaker]))
    have hth' := this.1
    have hge := this.2 hopen
    rw [hth'] at hge
    exact hge

/-- Witness for `breakerThresholdResetInvariant` at threshold 3 with a
concrete trace. -/
theorem breakerThresholdResetInvariant_w :
    (applyTrace (mkBreaker 3 60) (failures 3 0)).state = CircuitState.opened ∧
    (applyTrace (mkBreaker 3 60)
      (failures 2 0 ++ [BreakerEvent.success] ++ failures 2 1)).state ≠
      CircuitState.opened ∧
    ((applyTrace (mkBreaker 3 60) [BreakerEvent.failure 0]).state = CircuitState.opened →
      (applyTrace (mkBreaker 3 60) [BreakerEvent.failure 0]).failure_count ≥ 3) :=
  breakerThresholdResetInvariant 3 60 0 1 [BreakerEvent.failure 0] (by decide)

/-- A concrete stored-OPEN breaker: threshold 1, recovery timeout 60 s, one
failure recorded at time 0. -/
def openBreaker : CircuitBreaker :=
  { failure_threshold := 1, recovery_timeout_seconds := 60,
    failure_count := 1, state := CircuitState.opened, last_failure_time := 0 }

/-- C6: a breaker whose stored state is OPEN and whose last failure is more
than the recovery timeout in the past reports HALF_OPEN on the next state
read, mutates the stored state to HALF_OPEN, and allows the request. -/
theorem breakerRecoveryHalfOpen (cb : CircuitBreaker) (now : Int)
    (hopen : cb.state = CircuitState.opened)
    (helapsed : now - cb.last_failure_time > cb.recovery_timeout_seconds) :
    (cb.readState now).1 = CircuitState.halfOpen ∧
    (cb.readState now).2.state = CircuitState.halfOpen ∧
    (cb.allow_request now).1 = true := by
  have hcond : cb.state = CircuitState.opened ∧
      now - cb.last_failure_time ≥ cb.recovery_timeout_seconds :=
    ⟨hopen, le_of_lt helapsed⟩
  unfold CircuitBreaker.allow_request CircuitBreaker.readState
  rw [if_pos hcond]
  refine ⟨rfl, rfl, ?_⟩
  simp

/-- Witness for `breakerRecoveryHalfOpen`: OPEN breaker, timeout 60, last
failure at 0, read at 61. -/
theorem breakerRecoveryHalfOpen_w :
    (openBreaker.readState 61).1 = CircuitState.halfOpen ∧
    (openBreaker.readState 61).2.state = CircuitState.halfOpen ∧
    (openBreaker.allow_request 61).1 = true :=
  breakerRecoveryHalfOpen openBreaker 61 rfl (by decide)

/-! ## LLM provider retry loop (llm_provider.py, class LLMProvider) -/

/-- The concrete exception classes of llm_provider.py.  `providerError` is
the base `LLMProviderError`; the other three are its subclasses
`LLMRateLimitError`, `LLMAuthenticationError` and `LLMResponseError`.  An
`except LLMProviderError` clause catches all four classes. -/
inductive ErrClass
  | providerError
  | rateLimit
  | authentication
  | response
  deriving DecidableEq, Repr

/-- A raised provider exception: its class, message, and (one level of) the
`raise ... from ...` cause chain, recorded as the cause's class and message. -/
structure LLMError where
  cls : ErrClass
  msg : String
  cause : Option (ErrClass × String) := Option.none
  deriving DecidableEq, Repr

/-- Embeds `LLMResponse` (content/model/provider; usage and raw payload are
opaque to the retry logic and omitted). -/
structure LLMResponse where
  content : String
  model : String
  provider : String
  deriving DecidableEq, Repr

/-- The retry configuration held by `LLMProvider.__init__`, with the
defaults of constants.py (DEFAULT_MAX_RETRIES = 3 etc.).  The backoff
multiplier 2.0 is modelled as the integer 2: `int(delay_ms * 2.0)` equals
`delay_ms * 2` exactly. -/
structure ProviderCfg where
  provider_name : String := "openai"
  max_retries : Nat := 3
  initial_delay_ms : Nat := 100
  max_delay_ms : Nat := 10000
  backoff_multiplier : Nat := 2
  deriving DecidableEq, Repr

/-- The observable outcome of one `complete` call: the returned response or
the raised exception, the number of transport (`_call_api`) invocations, the
backoff sleeps performed (in ms, in order), and the final breaker state. -/
structure CompleteResult where
  outcome : Except LLMError LLMResponse
  invocations : Nat
  sleeps_ms : List Nat
  breaker : CircuitBreaker
  deriving Repr

/-- The final `raise LLMProviderError(f"{name}: all {n} attempts failed")
from last_error` of `complete`. -/
def allFailedError (cfg : ProviderCfg) (lastErr : Option LLMError) : LLMError :=
  { cls := ErrClass.providerError,
    msg := cfg.provider_name ++ ": all " ++ toString cfg.max_retries ++
      " attempts failed",
    cause := lastErr.map (fun e => (e.cls, e.msg)) }

/-- The `raise LLMProviderError(f"{name} circuit breaker is open – request
blocked")` of `complete`. -/
def circuitOpenError (cfg : ProviderCfg) : LLMError :=
  { cls := ErrClass.providerError,
    msg := cfg.provider_name ++ " circuit breaker is open – request blocked" }

/-- Embeds the `for attempt in range(1, max_retries + 1)` loop of
`LLMProvider.complete`.  `transport k` is the scripted result of the k-th
`_call_api` invocation.  Arguments: attempts remaining, 1-based attempt
index, current delay, breaker, last_error, sleeps so far (reversed),
invocations so far.  On success: record_success and return.  On an
authentication error: record_failure and re-raise.  On any other provider
error (rate limit, transport, response format): record_failure, and if
attempts remain, sleep `min(delay, max_delay)` and double the delay. -/
def completeLoop (cfg : ProviderCfg) (transport : Nat → Except LLMError LLMResponse)
    (now : Int) :
    Nat → Nat → Nat → CircuitBreaker → Option LLMError → List Nat → Nat →
    CompleteResult
  | 0, _attempt, _delay, cb, lastErr, sleeps, inv =>
    { outcome := Except.error (allFailedError cfg lastErr),
      invocations := inv, sleeps_ms := sleeps.reverse, breaker := cb }
  | remaining + 1, attempt, delay_ms, cb, _lastErr, sleeps, inv =>
    match transport attempt with
    | Except.ok resp =>
      { outcome := Except.ok resp, invocations := inv + 1,
        sleeps_ms := sleeps.reverse, breaker := cb.record_success }
    | Except.error e =>
      let cb' := cb.record_failure now
      if e.cls = ErrClass.authentication then
        { outcome := Except.error e, invocations := inv + 1,
          sleeps_ms := sleeps.reverse, breaker := cb' }
      else if 0 < remaining then
        completeLoop cfg transport now remaining (attempt + 1)
          (delay_ms * cfg.backoff_multiplier) cb' (some e)
          (min delay_ms cfg.max_delay_ms :: sleeps) (inv + 1)
      else
        completeLoop cfg transport now remaining (attempt + 1) delay_ms cb'
          (some e) sleeps (inv + 1)

/-- Embeds `LLMProvider.complete`: check the breaker (with its state-read
side effect); when blocked, raise the circuit-open `LLMProviderError` with
no transport call; otherwise run the retry loop. -/
def complete (cfg : ProviderCfg) (cb : CircuitBreaker)
    (transport : Nat → Except LLMError LLMResponse) (now : Int) :
    CompleteResult :=
  let ar := cb.allow_request now
  if ar.1 then
    completeLoop cfg transport now cfg.max_retries 1 cfg.initial_delay_ms ar.2
      Option.none [] 0
  else
    { outcome := Except.error (circuitOpenError cfg),
      invocations := 0, sleeps_ms := [], breaker := ar.2 }

/-- The class of the raised exception, when the call raised. -/
def outcomeCls (r : CompleteResult) : Option ErrClass :=
  match r.outcome with
  | Except.error e => some e.cls
  | Except.ok _ => Option.none

/-- When the transport fails on every attempt with a non-authentication
provider error, the loop consumes all remaining attempts, sleeping between
consecutive ones, and raises the wrap of the last error. -/
theorem completeLoop_all_fail (cfg : ProviderCfg)
    (transport : Nat → Except LLMError LLMResponse) (now : Int)
    (errs : Nat → LLMError)
    (herr : ∀ k, transport k = Except.error (errs k))
    (hcls : ∀ k, (errs k).cls ≠ ErrClass.authentication) :
    ∀ remaining attempt delay_ms cb lastErr sleeps inv, 1 ≤ remaining →
    (completeLoop cfg transport now remaining attempt delay_ms cb lastErr
        sleeps inv).invocations = inv + remaining ∧
    (completeLoop cfg transport now remaining attempt delay_ms cb lastErr
        sleeps inv).outcome =
      Except.error (allFailedError cfg (some (errs (attempt + remaining - 1)))) ∧
    (completeLoop cfg transport now remaining attempt delay_ms cb lastErr
        sleeps inv).sleeps_ms.length = sleeps.length + (remaining - 1) ∧
    (completeLoop cfg transport now remaining attempt delay_ms cb lastErr
        sleeps inv).breaker.failure_count = cb.failure_count + remaining := by
  intro remaining
  induction remaining with
  | zero => omega
  | succ m ih =>
    intro attempt delay_ms cb lastErr sleeps inv _
    have hstep : completeLoop cfg transport now (m + 1) attempt delay_ms cb
        lastErr sleeps inv =
        (if (errs attempt).cls = ErrClass.authentication then
          { outcome := Except.error (errs attempt), invocations := inv + 1,
            sleeps_ms := sleeps.reverse, breaker := cb.record_failure now }
         else if 0 < m then
          completeLoop cfg transport now m (attempt + 1)
            (delay_ms * cfg.backoff_multiplier) (cb.record_failure now)
            (some (errs attempt)) (min delay_ms cfg.max_delay_ms :: sleeps)
            (inv + 1)
         else
          completeLoop cfg transport now m (attempt + 1) delay_ms
            (cb.record_failure now) (some (errs attempt)) sleeps (inv + 1)) := by
      rw [completeLoop, herr attempt]
    rw [hstep, if_neg (hcls attempt)]
    rcases Nat.eq_zero_or_pos m with hm | hm
    · subst hm
      rw [if_neg (by omega)]
      have hbase : completeLoop cfg transport now 0 (attempt + 1) delay_ms
          (cb.record_failure now) (some (errs attempt)) sleeps (inv + 1) =
          { outcome := Except.error (allFailedError cfg (some (errs attempt))),
            invocations := inv + 1, sleeps_ms := sleeps.reverse,
            breaker := cb.record_failure now } := by
        rw [completeLoop]
      rw [hbase]
      refine ⟨rfl, ?_, by simp, ?_⟩
      · show Except.error (allFailedError cfg (some (errs attempt))) =
          Except.error (allFailedError cfg (some (errs (attempt + 1 - 1))))
        rw [Nat.add_sub_cancel]
      · show (cb.record_failure now).failure_count = cb.failure_count + 1
        exact record_failure_count cb now
    · rw [if_pos hm]
      have ih' := ih (attempt + 1) (delay_ms * cfg.backoff_multiplier)
        (cb.record_failure now) (some (errs attempt))
        (min delay_ms cfg.max_delay_ms :: sleeps) (inv + 1) hm
      refine ⟨by rw [ih'.1]; omega, ?_, ?_, ?_⟩
      · rw [ih'.2.1]
        have : attempt + 1 + m - 1 = attempt + (m + 1) - 1 := by omega
        rw [this]
      · rw [ih'.2.2.1]
        simp only [List.length_cons]
        omega
      · rw [ih'.2.2.2, record_failure_count]
        omega

/-- C4: when the breaker allows the request and the transport raises a
retryable transport error (plain `LLMProviderError`) on every invocation,
`complete` invokes the transport exactly `max_retries` times and then raises
the generic all-attempts-failed `LLMProviderError` wrapping the last
underlying error. -/
theorem retryTerminationExactBudget (cfg : ProviderCfg) (cb : CircuitBreaker)
    (transport : Nat → Except LLMError LLMResponse) (now : Int)
    (errs : Nat → LLMError)
    (hallow : (cb.allow_request now).1 = true)
    (herr : ∀ k, transport k = Except.error (errs k))
    (hcls : ∀ k, (errs k).cls = ErrClass.providerError)
    (hbudget : 1 ≤ cfg.max_retries) :
    (complete cfg cb transport now).invocations = cfg.max_retries ∧
    (complete cfg cb transport now).outcome =
      Except.error (allFailedError cfg (some (errs cfg.max_retries))) := by
  simp only [complete, hallow, if_true]
  have h := completeLoop_all_fail cfg transport now errs herr
    (fun k => by rw [hcls k]; intro hcon; cases hcon)
    cfg.max_retries 1 cfg.initial_delay_ms (cb.allow_request now).2
    Option.none [] 0 hbudget
  refine ⟨by rw [h.1]; omega, ?_⟩
  rw [h.2.1]
  have : 1 + cfg.max_retries - 1 = cfg.max_retries := by omega
  rw [this]

/-- A transport that always raises a connection-style `LLMProviderError`. -/
def alwaysTransportErr : Nat → Except LLMError LLMResponse :=
  fun k => Except.error
    { cls := ErrClass.providerError,
      msg := "OpenAI connection error: attempt " ++ toString k }

/-- Witness for `retryTerminationExactBudget` with the default config
(max_retries = 3) and a fresh breaker. -/
theorem retryTerminationExactBudget_w :
    (complete {} {} alwaysTransportErr 0).invocations = 3 ∧
    (complete {} {} alwaysTransportErr 0).outcome =
      Except.error (allFailedError {}
        (some { cls := ErrClass.providerError,
                msg := "OpenAI connection error: attempt 3" })) :=
  retryTerminationExactBudget {} {} alwaysTransportErr 0
    (fun k => { cls := ErrClass.providerError,
                msg := "OpenAI connection error: attempt " ++ toString k })
    (by decide) (fun _ => rfl) (fun _ => rfl) (by decide)

/-- A transport whose first call raises `LLMResponseError` (malformed
success response) and whose second call succeeds. -/
def formatThenOk : Nat → Except LLMError LLMResponse
  | 1 => Except.error
    { cls := ErrClass.response, msg := "OpenAI: unexpected response format" }
  | _ => Except.ok { content := "ok", model := "gpt-4", provider := "openai" }

/-- C1 counterexample: with the default config and a fresh breaker, a
transport raising `LLMResponseError` on its first invocation is NOT
re-raised immediately: `complete` retries (2 transport invocations, one
backoff sleep) and returns the second attempt's success.  `complete` has no
separate handler for `LLMResponseError`; being a subclass of
`LLMProviderError` it is caught by the generic retry branch. -/
theorem responseFormatRetried_cx :
    (complete {} {} formatThenOk 0).invocations = 2 ∧
    (complete {} {} formatThenOk 0).outcome =
      Except.ok { content := "ok", model := "gpt-4", provider := "openai" } ∧
    (complete {} {} formatThenOk 0).sleeps_ms = [100] := by
  refine ⟨rfl, rfl, rfl⟩

/-- C1 amended: `LLMResponseError` is treated like any retryable provider
error.  With a transport raising it on every invocation, `complete` makes
exactly `max_retries` transport invocations, records `max_retries` breaker
failures, sleeps `max_retries - 1` times, and raises the generic
all-attempts-failed error wrapping the last response-format error. -/
theorem responseFormatRetriedLikeTransient (cfg : ProviderCfg)
    (cb : CircuitBreaker) (transport : Nat → Except LLMError LLMResponse)
    (now : Int) (errs : Nat → LLMError)
    (hallow : (cb.allow_request now).1 = true)
    (herr : ∀ k, transport k = Except.error (errs k))
    (hcls : ∀ k, (errs k).cls = ErrClass.response)
    (hbudget : 1 ≤ cfg.max_retries) :
    (complete cfg cb transport now).invocations = cfg.max_retries ∧
    (complete cfg cb transport now).outcome =
      Except.error (allFailedError cfg (some (errs cfg.max_retries))) ∧
    (complete cfg cb transport now).sleeps_ms.length = cfg.max_retries - 1 ∧
    (complete cfg cb transport now).breaker.failure_count =
      (cb.allow_request now).2.failure_count + cfg.max_retries := by
  simp only [complete, hallow, if_true]
  have h := completeLoop_all_fail cfg transport now errs herr
    (fun k => by rw [hcls k]; intro hcon; cases hcon)
    cfg.max_retries 1 cfg.initial_delay_ms (cb.allow_request now).2
    Option.none [] 0 hbudget
  refine ⟨by rw [h.1]; omega, ?_, by rw [h.2.2.1]; simp, h.2.2.2⟩
  rw [h.2.1]
  have : 1 + cfg.max_retries - 1 = cfg.max_retries := by omega
  rw [this]

/-- A transport that always raises `LLMResponseError`. -/
def alwaysFormatErr : Nat → Except LLMError LLMResponse :=
  fun _ => Except.error
    { cls := ErrClass.response, msg := "OpenAI: unexpected response format" }

/-- Witness for `responseFormatRetriedLikeTransient` with the default
config (max_retries = 3) and a fresh breaker. -/
theorem responseFormatRetriedLikeTransient_w :
    (complete {} {} alwaysFormatErr 0).invocations = 3 ∧
    (complete {} {} alwaysFormatErr 0).outcome =
      Except.error (allFailedError {}
        (some { cls := ErrClass.response,
                msg := "OpenAI: unexpected response format" })) ∧
    (complete {} {} alwaysFormatErr 0).sleeps_ms.length = 3 - 1 ∧
    (complete {} {} alwaysFormatErr 0).breaker.failure_count =
      (({} : CircuitBreaker).allow_request 0).2.failure_count + 3 :=
  responseFormatRetriedLikeTransient {} {} alwaysFormatErr 0
    (fun _ => { cls := ErrClass.response,
                msg := "OpenAI: unexpected response format" })
    (by decide) (fun _ => rfl) (fun _ => rfl) (by decide)

/-- C7 counterexample: the circuit-open failure is NOT a distinct
well-typed error class.  The code raises the base `LLMProviderError` both
when the breaker blocks the request and when all retry attempts are
exhausted, so the two failure modes are indistinguishable by exception
class (there is no `CircuitOpenError` class in the code). -/
theorem circuitOpenNotDistinct_cx :
    outcomeCls (complete {} openBreaker alwaysTransportErr 0) =
      some ErrClass.providerError ∧
    outcomeCls (complete {} {} alwaysTransportErr 0) =
      some ErrClass.providerError ∧
    (complete {} openBreaker alwaysTransportErr 0).invocations = 0 := by
  refine ⟨rfl, rfl, rfl⟩

/-- C7 amended: when the breaker blocks the request, `complete` fails fast
with zero transport invocations, raising the generic base
`LLMProviderError` (class `providerError`) carrying the circuit-open
message — not a distinct circuit-open exception class. -/
theorem circuitOpenFailFast (cfg : ProviderCfg) (cb : CircuitBreaker)
    (transport : Nat → Except LLMError LLMResponse) (now : Int)
    (hblock : (cb.allow_request now).1 = false) :
    (complete cfg cb transport now).invocations = 0 ∧
    (complete cfg cb transport now).outcome =
      Except.error (circuitOpenError cfg) ∧
    (circuitOpenError cfg).cls = ErrClass.providerError := by
  refine ⟨?_, ?_, rfl⟩ <;> simp [complete, hblock]

/-- Witness for `circuitOpenFailFast`: an OPEN breaker within its recovery
window blocks a default-config call. -/
theorem circuitOpenFailFast_w :
    (complete {} openBreaker alwaysTransportErr 0).invocations = 0 ∧
    (complete {} openBreaker alwaysTransportErr 0).outcome =
      Except.error (circuitOpenError {}) ∧
    (circuitOpenError {}).cls = ErrClass.providerError :=
  circuitOpenFailFast {} openBreaker alwaysTransportErr 0 (by decide)

/-! ## Local LRU cache (cache_service.py, class LocalLRUCache) -/

/-- A cached Python value.  `pynone` embeds Python `None`, which the cache
API conflates with absence. -/
inductive PyVal
  | pynone
  | str (s : String)
  | num (n : Int)
  deriving DecidableEq, Repr

/-- One entry of the `OrderedDict`: key, stored value, optional absolute
expiry time (`time.time() + ttl`). -/
structure LRUEntry where
  key : String
  val : PyVal
  expires_at : Option Int
  deriving DecidableEq, Repr

/-- Embeds `LocalLRUCache`: the `OrderedDict` is a list of entries with
distinct keys, front = least recently used, back = most recently used. -/
structure LocalLRUCache where
  entries : List LRUEntry
  max_size : Nat := 1000
  deriving DecidableEq, Repr

/-- The `OrderedDict` lookup `self._cache[key]`. -/
def LocalLRUCache.lookup (c : LocalLRUCache) (key : String) : Option LRUEntry :=
  c.entries.find? (fun en => en.key == key)

/-- Embeds `LocalLRUCache._is_expired`: absent keys count as expired; a
present key with a passed `expires_at` is popped from the dict (a mutation)
and reported expired. -/
def LocalLRUCache.is_expired (c : LocalLRUCache) (now : Int) (key : String) :
    Bool × LocalLRUCache :=
  match c.lookup key with
  | Option.none => (true, c)
  | some en =>
    match en.expires_at with
    | Option.none => (false, c)
    | some t =>
      if now ≥ t then
        (true, { c with entries := c.entries.filter (fun e => !(e.key == key)) })
      else
        (false, c)

/-- Embeds `LocalLRUCache.get`: absent → None; expired → None (after the
expiry pop); otherwise move the entry to the most-recently-used end and
return its stored value. -/
def LocalLRUCache.get (c : LocalLRUCache) (now : Int) (key : String) :
    PyVal × LocalLRUCache :=
  match c.lookup key with
  | Option.none => (PyVal.pynone, c)
  | some _ =>
    let r := c.is_expired now key
    if r.1 then (PyVal.pynone, r.2)
    else
      match r.2.lookup key with
      | some en =>
        (en.val, { r.2 with
          entries := r.2.entries.filter (fun e => !(e.key == key)) ++ [en] })
      | Option.none => (PyVal.pynone, r.2)

/-- Embeds `LocalLRUCache.set`: an existing key is moved to the end and
overwritten (modelled as remove + append); a new key is appended; then the
front (least recently used) is popped while the size exceeds `max_size`. -/
def LocalLRUCache.set (c : LocalLRUCache) (now : Int) (key : String)
    (value : PyVal) (ttl : Option Int) : LocalLRUCache :=
  let expires_at := ttl.map (fun t => now + t)
  let entries := c.entries.filter (fun e => !(e.key == key)) ++
    [{ key := key, val := value, expires_at := expires_at }]
  { c with entries := entries.drop (entries.length - c.max_size) }

/-- The keys currently stored, in least-to-most recently used order. -/
def LocalLRUCache.keys (c : LocalLRUCache) : List String :=
  c.entries.map LRUEntry.key

/-- An empty cache of the given capacity (`LocalLRUCache(max_size=n)`). -/
def emptyLRU (n : Nat) : LocalLRUCache := { entries := [], max_size := n }

/-- Insert each key of `ks` in order with value `v` and no TTL. -/
def setAll (c : LocalLRUCache) (now : Int) (ks : List String) (v : PyVal) :
    LocalLRUCache :=
  ks.foldl (fun acc k => acc.set now k v Option.none) c

theorem setAll_cons (c : LocalLRUCache) (now : Int) (k : String)
    (ks : List String) (v : PyVal) :
    setAll c now (k :: ks) v = setAll (c.set now k v Option.none) now ks v := rfl

theorem emptyLRU_keys (n : Nat) : (emptyLRU n).keys = [] := rfl

theorem filter_fresh (c : LocalLRUCache) (key : String)
    (hfresh : ¬ key ∈ c.keys) :
    c.entries.filter (fun e => !(e.key == key)) = c.entries := by
  apply List.filter_eq_self.2
  intro e he
  have hne : e.key ≠ key := fun hk => hfresh (by
    rw [← hk]; exact List.mem_map_of_mem LRUEntry.key he)
  simp [hne]

theorem set_unfold (c : LocalLRUCache) (now : Int) (key : String)
    (v : PyVal) (hfresh : ¬ key ∈ c.keys) :
    (c.set now key v Option.none).entries =
      (c.entries ++ [({ key := key, val := v, expires_at := Option.none } : LRUEntry)]).drop
        (c.entries.length + 1 - c.max_size) ∧
    (c.set now key v Option.none).max_size = c.max_size := by
  unfold LocalLRUCache.set
  dsimp only
  rw [filter_fresh c key hfresh]
  have hl : (c.entries ++
      [({ key := key, val := v,
          expires_at := (Option.none : Option Int).map (fun t => now + t) } : LRUEntry)]).length =
      c.entries.length + 1 := by simp
  rw [hl]
  exact ⟨rfl, rfl⟩

/-- Setting a fresh key in a not-yet-full cache appends it, evicting
nothing. -/
theorem set_fresh_keys (c : LocalLRUCache) (now : Int) (key : String)
    (v : PyVal) (hfresh : ¬ key ∈ c.keys)
    (hroom : c.entries.length < c.max_size) :
    (c.set now key v Option.none).keys = c.keys ++ [key] ∧
    (c.set now key v Option.none).entries.length = c.entries.length + 1 ∧
    (c.set now key v Option.none).max_size = c.max_size := by
  obtain ⟨he, hms⟩ := set_unfold c now key v hfresh
  have hdrop : c.entries.length + 1 - c.max_size = 0 := by omega
  rw [hdrop, List.drop_zero] at he
  refine ⟨?_, ?_, hms⟩
  · show (c.set now key v Option.none).entries.map LRUEntry.key = c.keys ++ [key]
    rw [he, List.map_append]
    rfl
  · rw [he]; simp

/-- Filling an empty cache of capacity `m` with `m` distinct keys stores
them all in insertion order. -/
theorem setAll_fills (now : Int) (v : PyVal) :
    ∀ (ks : List String) (c : LocalLRUCache), ks.Nodup →
    (∀ k ∈ ks, ¬ k ∈ c.keys) →
    c.entries.length + ks.length ≤ c.max_size →
    (setAll c now ks v).keys = c.keys ++ ks ∧
    (setAll c now ks v).entries.length = c.entries.length + ks.length ∧
    (setAll c now ks v).max_size = c.max_size := by
  intro ks
  induction ks with
  | nil => intro c _ _ _; exact ⟨by simp [setAll], by simp [setAll], rfl⟩
  | cons k rest ih =>
    intro c hnd hfresh hroom
    rw [setAll_cons]
    have hset := set_fresh_keys c now k v (hfresh k (by simp))
      (by simp at hroom; omega)
    have ih' := ih (c.set now k v Option.none) (List.Nodup.of_cons hnd)
      (by
        intro k' hk'
        rw [hset.1]
        intro hmem
        rcases List.mem_append.1 hmem with h | h
        · exact hfresh k' (List.mem_cons_of_mem k hk') h
        · have : k' = k := by simpa using h
          subst this
          exact (List.nodup_cons.1 hnd).1 hk')
      (by rw [hset.2.1, hset.2.2]; simp at hroom ⊢; omega)
    refine ⟨?_, ?_, ?_⟩
    · rw [ih'.1, hset.1]; simp
    · rw [ih'.2.1, hset.2.1]; simp [List.length_cons]; omega
    · rw [ih'.2.2, hset.2.2]

/-- Inserting one more fresh key into a full cache evicts exactly the
least-recently-used entry (the front). -/
theorem set_full_evicts_front (c : LocalLRUCache) (now : Int) (key : String)
    (v : PyVal) (hfresh : ¬ key ∈ c.keys)
    (hfull : c.entries.length = c.max_size) (hm : 1 ≤ c.max_size) :
    (c.set now key v Option.none).keys = c.keys.drop 1 ++ [key] := by
  obtain ⟨he, _⟩ := set_unfold c now key v hfresh
  have hdrop : c.entries.length + 1 - c.max_size = 1 := by omega
  rw [hdrop] at he
  show (c.set now key v Option.none).entries.map LRUEntry.key = c.keys.drop 1 ++ [key]
  rw [he]
  show ((c.entries ++ [({ key := key, val := v, expires_at := Option.none } : LRUEntry)]).drop 1).map
    LRUEntry.key = (c.entries.map LRUEntry.key).drop 1 ++ [key]
  rcases hent : c.entries with _ | ⟨e, rest⟩
  · rw [hent] at hfull
    simp at hfull
    omega
  · rw [List.cons_append, List.drop_one, List.tail_cons, List.map_cons, List.drop_one,
      List.tail_cons, List.map_append]
    rfl

/-- C8: LRU eviction.  General part: inserting `maxSize + 1` distinct keys
into an empty cache of capacity `maxSize ≥ 1` leaves exactly the last
`maxSize` keys — the first-inserted (least recently accessed) key is the
one evicted.  Concrete part: with maxSize = 3, after set a, set b, set c,
get a, set d, key b is evicted and exactly c, a, d remain (a was protected
by the get, which moved it to most recently used). -/
theorem lruEviction (m : Nat) (ks : List String) (k0 : String) (v : PyVal)
    (now : Int) (hm : 1 ≤ m) (hnd : (k0 :: ks).Nodup)
    (hlen : ks.length = m) :
    (setAll (emptyLRU m) now (k0 :: ks) v).keys = ks ∧
    ((setAll (emptyLRU 3) 0 ["a", "b", "c"] (PyVal.str "v")).get 0 "a" |>.2.set 0 "d"
        (PyVal.str "v") Option.none).keys = ["c", "a", "d"] := by
  constructor
  · rw [setAll_cons]
    have hempty0 : (emptyLRU m).entries.length = 0 := rfl
    have hemptym : (emptyLRU m).max_size = m := rfl
    have hk0 := set_fresh_keys (emptyLRU m) now k0 v
      (by rw [emptyLRU_keys]; exact List.not_mem_nil k0)
      (by rw [hempty0, hemptym]; omega)
    rcases List.eq_nil_or_concat ks with hnil | ⟨front, last, hsplit⟩
    · subst hnil; simp at hlen; omega
    · rw [List.concat_eq_append] at hsplit
      subst hsplit
      have hk0front : ¬ k0 ∈ front := fun h =>
        (List.nodup_cons.1 hnd).1 (List.mem_append_left _ h)
      have hk0last : k0 ≠ last := fun h =>
        (List.nodup_cons.1 hnd).1 (by rw [h]; exact List.mem_append_right _ (by simp))
      have hfl := (List.nodup_cons.1 hnd).2
      have hfrontnd := (List.nodup_append.1 hfl).1
      have hdisj := (List.nodup_append.1 hfl).2.2
      have hlastfront : ¬ last ∈ front := fun h => hdisj h (by simp)
      have hlen' : front.length + 1 = m := by simpa using hlen
      have hfills := setAll_fills now v front ((emptyLRU m).set now k0 v Option.none)
        hfrontnd
        (by
          intro k' hk'
          rw [hk0.1, emptyLRU_keys, List.nil_append]
          intro hmem
          have hk'eq : k' = k0 := by simpa using hmem
          exact hk0front (hk'eq ▸ hk'))
        (by rw [hk0.2.1, hk0.2.2, hempty0, hemptym]; omega)
      have hfull : (setAll ((emptyLRU m).set now k0 v Option.none) now front v).entries.length =
          (setAll ((emptyLRU m).set now k0 v Option.none) now front v).max_size := by
        rw [hfills.2.1, hfills.2.2, hk0.2.1, hk0.2.2, hempty0, hemptym]
        omega
      have hmax : (setAll ((emptyLRU m).set now k0 v Option.none) now front v).max_size = m := by
        rw [hfills.2.2, hk0.2.2, hemptym]
      have hlastfresh :
          ¬ last ∈ (setAll ((emptyLRU m).set now k0 v Option.none) now front v).keys := by
        rw [hfills.1, hk0.1, emptyLRU_keys, List.nil_append]
        intro hmem
        rcases List.mem_append.1 hmem with h | h
        · have : last = k0 := by simpa using h
          exact hk0last this.symm
        · exact hlastfront h
      have hfront : setAll ((emptyLRU m).set now k0 v Option.none) now (front ++ [last]) v =
          (setAll ((emptyLRU m).set now k0 v Option.none) now front v).set now
            last v Option.none := by
        unfold setAll
        rw [List.foldl_append]
        rfl
      rw [hfront, set_full_evicts_front _ now last v hlastfresh hfull (by rw [hmax]; omega),
        hfills.1, hk0.1, emptyLRU_keys, List.nil_append]
      show (([k0] ++ front).drop 1) ++ [last] = front ++ [last]
      rw [List.singleton_append, List.drop_one, List.tail_cons]
  · rfl

/-- Witness for `lruEviction` with maxSize = 3 and keys a, b, c, d. -/
theorem lruEviction_w :
    (setAll (emptyLRU 3) 0 ["a", "b", "c", "d"] (PyVal.str "v")).keys =
      ["b", "c", "d"] ∧
    ((setAll (emptyLRU 3) 0 ["a", "b", "c"] (PyVal.str "v")).get 0 "a" |>.2.set 0 "d"
        (PyVal.str "v") Option.none).keys = ["c", "a", "d"] :=
  (lruEviction 3 ["b", "c", "d"] "a" (PyVal.str "v") 0 (by decide) (by decide)
    (by decide))

/-! ## Cache service in local-only mode (cache_service.py, class CacheService)

The claims below concern the public cache interface; they are settled in the
local-only mode the code enters when `config is None` (`_use_local_only =
True`, `_client is None`), in which every Redis branch of get/set is skipped.
-/

/-- Embeds `CacheService` in local-only mode: just the local LRU tier. -/
structure CacheService where
  local_cache : LocalLRUCache
  deriving DecidableEq, Repr

/-- Embeds `CacheService.get` (local-only): consult the local cache (with
its promotion / expiry-pop side effects); a non-None local value is
returned, otherwise None (the Redis fallback is skipped). -/
def CacheService.get (cs : CacheService) (now : Int) (key : String) :
    PyVal × CacheService :=
  let r := cs.local_cache.get now key
  if r.1 ≠ PyVal.pynone then (r.1, { local_cache := r.2 })
  else (PyVal.pynone, { local_cache := r.2 })

/-- Embeds `CacheService.set` (local-only): always update the local cache
and report success. -/
def CacheService.set (cs : CacheService) (now : Int) (key : String)
    (value : PyVal) (ttl : Option Int) : Bool × CacheService :=
  (true, { local_cache := cs.local_cache.set now key value ttl })

/-- Result of `get_or_fetch`: the returned value, the mutated service, and
how many times the loader (`fetch_fn`) was invoked. -/
structure FetchResult where
  value : PyVal
  service : CacheService
  loader_calls : Nat
  deriving DecidableEq, Repr

/-- Embeds `CacheService.get_or_fetch` (cache-aside): return the cached
value if non-None; otherwise call `fetch_fn` (modelled as the pure value it
returns, plus an invocation counter) and, if its result is not None, store
it with the given ttl before returning it. -/
def CacheService.get_or_fetch (cs : CacheService) (now : Int) (key : String)
    (fetch_fn : PyVal) (ttl : Option Int) : FetchResult :=
  let g := cs.get now key
  if g.1 ≠ PyVal.pynone then
    { value := g.1, service := g.2, loader_calls := 0 }
  else
    if fetch_fn ≠ PyVal.pynone then
      { value := fetch_fn, service := (g.2.set now key fetch_fn ttl).2,
        loader_calls := 1 }
    else
      { value := fetch_fn, service := g.2, loader_calls := 1 }

theorem find_removed (l : List LRUEntry) (key : String) :
    (l.filter (fun e => !(e.key == key))).find? (fun e => e.key == key) =
      Option.none := by
  apply List.find?_eq_none.2
  intro e he
  have := List.of_mem_filter he
  simpa using this

theorem find_snoc_fresh (l : List LRUEntry) (en : LRUEntry) (key : String)
    (hl : l.find? (fun e => e.key == key) = Option.none)
    (hen : (en.key == key) = true) :
    (l ++ [en]).find? (fun e => e.key == key) = some en := by
  rw [List.find?_append, hl]
  show List.find? (fun (e : LRUEntry) => e.key == key) [en] = some en
  exact List.find?_cons_of_pos (p := fun (e : LRUEntry) => e.key == key) [] hen

/-- `LocalLRUCache.set` on a cache with capacity at least 1 leaves the new
entry present and most recently used. -/
theorem set_lookup (c : LocalLRUCache) (now : Int) (key : String)
    (v : PyVal) (ttl : Option Int) (hmax : 1 ≤ c.max_size) :
    (c.set now key v ttl).lookup key =
      some { key := key, val := v, expires_at := ttl.map (fun t => now + t) } ∧
    (c.set now key v ttl).max_size = c.max_size := by
  unfold LocalLRUCache.set LocalLRUCache.lookup
  dsimp only
  refine ⟨?_, rfl⟩
  set A := c.entries.filter (fun e => !(e.key == key)) with hA
  set en : LRUEntry :=
    { key := key, val := v, expires_at := ttl.map (fun t => now + t) } with hen
  have hlen : (A ++ [en]).length = A.length + 1 := by simp
  rw [hlen]
  have hle : A.length + 1 - c.max_size ≤ A.length := by omega
  rw [List.drop_append_of_le_length hle]
  apply find_snoc_fresh
  · apply List.find?_eq_none.2
    intro x hx
    have hxA : x ∈ A := List.mem_of_mem_drop hx
    have := List.of_mem_filter hxA
    simpa using this
  · simp [hen]

theorem is_expired_of_lookup_none (c : LocalLRUCache) (now : Int)
    (key : String) (h : c.lookup key = Option.none) :
    c.is_expired now key = (true, c) := by
  unfold LocalLRUCache.is_expired
  simp only [h]

theorem is_expired_of_no_expiry (c : LocalLRUCache) (now : Int) (key : String)
    (en : LRUEntry) (h : c.lookup key = some en)
    (he : en.expires_at = Option.none) :
    c.is_expired now key = (false, c) := by
  unfold LocalLRUCache.is_expired
  simp only [h, he]

theorem is_expired_of_live (c : LocalLRUCache) (now : Int) (key : String)
    (en : LRUEntry) (t : Int) (h : c.lookup key = some en)
    (he : en.expires_at = some t) (hlt : ¬ now ≥ t) :
    c.is_expired now key = (false, c) := by
  unfold LocalLRUCache.is_expired
  simp only [h, he]
  rw [if_neg hlt]

theorem is_expired_of_dead (c : LocalLRUCache) (now : Int) (key : String)
    (en : LRUEntry) (t : Int) (h : c.lookup key = some en)
    (he : en.expires_at = some t) (hge : now ≥ t) :
    c.is_expired now key =
      (true, { c with entries := c.entries.filter (fun e => !(e.key == key)) }) := by
  unfold LocalLRUCache.is_expired
  simp only [h, he]
  rw [if_pos hge]

theorem get_of_lookup_none (c : LocalLRUCache) (now : Int) (key : String)
    (h : c.lookup key = Option.none) :
    c.get now key = (PyVal.pynone, c) := by
  unfold LocalLRUCache.get
  simp only [h]

theorem get_of_expired (c : LocalLRUCache) (now : Int) (key : String)
    (en : LRUEntry) (c1 : LocalLRUCache) (h : c.lookup key = some en)
    (hexp : c.is_expired now key = (true, c1)) :
    c.get now key = (PyVal.pynone, c1) := by
  unfold LocalLRUCache.get
  simp only [h, hexp]
  rw [if_pos trivial]

theorem get_of_live (c : LocalLRUCache) (now : Int) (key : String)
    (en : LRUEntry) (h : c.lookup key = some en)
    (hexp : c.is_expired now key = (false, c)) :
    c.get now key =
      (en.val, { c with
        entries := c.entries.filter (fun e => !(e.key == key)) ++ [en] }) := by
  unfold LocalLRUCache.get
  simp only [h, hexp]
  rw [if_neg (by simp)]

/-- `LocalLRUCache.get` right after a `set` with no ttl or a positive ttl
returns exactly the stored value (even a stored `None`). -/
theorem lru_get_after_set (c : LocalLRUCache) (now : Int) (key : String)
    (v : PyVal) (ttl : Option Int) (httl : ∀ t ∈ ttl, 0 < t)
    (hmax : 1 ≤ c.max_size) :
    ((c.set now key v ttl).get now key).1 = v := by
  obtain ⟨hlook, _⟩ := set_lookup c now key v ttl hmax
  have hexp : (c.set now key v ttl).is_expired now key =
      (false, c.set now key v ttl) := by
    cases ttl with
    | none => exact is_expired_of_no_expiry _ now key _ hlook rfl
    | some t =>
      refine is_expired_of_live _ now key _ (now + t) hlook rfl ?_
      have ht := httl t (by simp)
      omega
  rw [get_of_live _ now key _ hlook hexp]

/-- The promoted copy of a present key can be looked up again. -/
theorem lookup_promoted (c : LocalLRUCache) (key : String) (en : LRUEntry)
    (hlook : c.lookup key = some en) :
    ({ c with entries := c.entries.filter (fun e => !(e.key == key)) ++ [en] }
        : LocalLRUCache).lookup key = some en := by
  unfold LocalLRUCache.lookup at *
  exact find_snoc_fresh _ en key (find_removed c.entries key)
    (by
      have hk := List.find?_some hlook
      simpa using hk)

/-- A key whose `LocalLRUCache.get` reads None keeps reading None: the read
either found nothing, popped an expired entry, or promoted a stored None. -/
theorem lru_get_none_stable (c : LocalLRUCache) (now : Int) (key : String)
    (h : (c.get now key).1 = PyVal.pynone) :
    (((c.get now key).2).get now key).1 = PyVal.pynone ∧
    ((c.get now key).2).max_size = c.max_size := by
  cases hlook : c.lookup key with
  | none =>
    rw [get_of_lookup_none c now key hlook]
    exact ⟨by rw [get_of_lookup_none c now key hlook], rfl⟩
  | some en =>
    cases hexp : en.expires_at with
    | none =>
      have hie := is_expired_of_no_expiry c now key en hlook hexp
      have hg := get_of_live c now key en hlook hie
      rw [hg] at h ⊢
      have henval : en.val = PyVal.pynone := h
      have hlook2 := lookup_promoted c key en hlook
      have hie2 := is_expired_of_no_expiry _ now key en hlook2 hexp
      have hg2 := get_of_live _ now key en hlook2 hie2
      rw [show ((en.val, ({ c with
          entries := c.entries.filter (fun e => !(e.key == key)) ++ [en] }
          : LocalLRUCache)) : PyVal × LocalLRUCache).2 =
        ({ c with entries := c.entries.filter (fun e => !(e.key == key)) ++ [en] }
          : LocalLRUCache) from rfl, hg2]
      exact ⟨henval, rfl⟩
    | some t =>
      by_cases hge : now ≥ t
      · have hie := is_expired_of_dead c now key en t hlook hexp hge
        have hg := get_of_expired c now key en _ hlook hie
        rw [hg]
        have hlook2 : ({ c with
            entries := c.entries.filter (fun e => !(e.key == key)) }
            : LocalLRUCache).lookup key = Option.none :=
          find_removed c.entries key
        exact ⟨by rw [get_of_lookup_none _ now key hlook2], rfl⟩
      · have hie := is_expired_of_live c now key en t hlook hexp hge
        have hg := get_of_live c now key en hlook hie
        rw [hg] at h ⊢
        have henval : en.val = PyVal.pynone := h
        have hlook2 := lookup_promoted c key en hlook
        have hie2 := is_expired_of_live _ now key en t hlook2 hexp hge
        have hg2 := get_of_live _ now key en hlook2 hie2
        rw [show ((en.val, ({ c with
            entries := c.entries.filter (fun e => !(e.key == key)) ++ [en] }
            : LocalLRUCache)) : PyVal × LocalLRUCache).2 =
          ({ c with entries := c.entries.filter (fun e => !(e.key == key)) ++ [en] }
            : LocalLRUCache) from rfl, hg2]
        exact ⟨henval, rfl⟩

/-- `LocalLRUCache.get` never changes the configured capacity. -/
theorem lru_get_max (c : LocalLRUCache) (now : Int) (key : String) :
    ((c.get now key).2).max_size = c.max_size := by
  cases hlook : c.lookup key with
  | none => rw [get_of_lookup_none c now key hlook]
  | some en =>
    cases hexp : en.expires_at with
    | none =>
      rw [get_of_live c now key en hlook
        (is_expired_of_no_expiry c now key en hlook hexp)]
    | some t =>
      by_cases hge : now ≥ t
      · rw [get_of_expired c now key en _ hlook
          (is_expired_of_dead c now key en t hlook hexp hge)]
      · rw [get_of_live c now key en hlook
          (is_expired_of_live c now key en t hlook hexp hge)]

/-- `LocalLRUCache.get` right after a `set` of a None value reads None, with
or without an expired ttl. -/
theorem lru_get_after_set_none (c : LocalLRUCache) (now : Int) (key : String)
    (ttl : Option Int) (hmax : 1 ≤ c.max_size) :
    ((c.set now key PyVal.pynone ttl).get now key).1 = PyVal.pynone := by
  obtain ⟨hlook, _⟩ := set_lookup c now key PyVal.pynone ttl hmax
  cases ttl with
  | none =>
    have hexp := is_expired_of_no_expiry _ now key _ hlook rfl
    rw [get_of_live _ now key _ hlook hexp]
  | some t =>
    by_cases hge : now ≥ now + t
    · have hexp := is_expired_of_dead _ now key _ (now + t) hlook rfl hge
      rw [get_of_expired _ now key _ _ hlook hexp]
    · have hexp := is_expired_of_live _ now key _ (now + t) hlook rfl hge
      rw [get_of_live _ now key _ hlook hexp]

/-- The two branches of `CacheService.get` agree with the local tier's read:
the returned value is exactly the local read (None stands for absence) and
the service keeps the mutated local cache. -/
theorem cs_get_eq (cs : CacheService) (now : Int) (key : String) :
    cs.get now key =
      ((cs.local_cache.get now key).1,
        { local_cache := (cs.local_cache.get now key).2 }) := by
  simp only [CacheService.get]
  by_cases h : (cs.local_cache.get now key).1 ≠ PyVal.pynone
  · rw [if_pos h]
  · rw [if_neg h]
    push_neg at h
    rw [h]

/-- A key reading None from `CacheService.get` still reads None after that
get's own side effects. -/
theorem cs_get_none_stable (cs : CacheService) (now : Int) (key : String)
    (h : (cs.get now key).1 = PyVal.pynone) :
    (((cs.get now key).2).get now key).1 = PyVal.pynone := by
  have hl : (cs.local_cache.get now key).1 = PyVal.pynone := by
    rw [cs_get_eq] at h
    exact h
  have hs := (lru_get_none_stable cs.local_cache now key hl).1
  rw [cs_get_eq, cs_get_eq]
  exact hs

theorem gof_hit (cs : CacheService) (now : Int) (key : String) (v : PyVal)
    (ttl : Option Int) (h : (cs.get now key).1 ≠ PyVal.pynone) :
    cs.get_or_fetch now key v ttl =
      { value := (cs.get now key).1, service := (cs.get now key).2,
        loader_calls := 0 } := by
  simp only [CacheService.get_or_fetch]
  rw [if_pos h]

theorem gof_miss_store (cs : CacheService) (now : Int) (key : String)
    (v : PyVal) (ttl : Option Int) (hmiss : (cs.get now key).1 = PyVal.pynone)
    (hv : v ≠ PyVal.pynone) :
    cs.get_or_fetch now key v ttl =
      { value := v, service := ((cs.get now key).2.set now key v ttl).2,
        loader_calls := 1 } := by
  simp only [CacheService.get_or_fetch]
  rw [if_neg (by rw [hmiss]; simp), if_pos hv]

theorem gof_miss_none (cs : CacheService) (now : Int) (key : String)
    (ttl : Option Int) (hmiss : (cs.get now key).1 = PyVal.pynone) :
    cs.get_or_fetch now key PyVal.pynone ttl =
      { value := PyVal.pynone, service := (cs.get now key).2,
        loader_calls := 1 } := by
  simp only [CacheService.get_or_fetch]
  rw [if_neg (by rw [hmiss]; simp), if_neg (by simp)]

/-- C9: cache-aside.  On a hit (`get` reads a non-None value) `get_or_fetch`
calls the loader zero times and returns the cached value; on a miss it
calls the loader exactly once, returns the loaded value, and that value is
readable by a subsequent plain `get` of the same key. -/
theorem cacheAsideLoaderOnce (cs : CacheService) (now : Int) (key : String)
    (v : PyVal) (ttl : Option Int) (httl : ∀ t ∈ ttl, 0 < t)
    (hmax : 1 ≤ cs.local_cache.max_size) :
    ((cs.get now key).1 ≠ PyVal.pynone →
      (cs.get_or_fetch now key v ttl).loader_calls = 0 ∧
      (cs.get_or_fetch now key v ttl).value = (cs.get now key).1) ∧
    ((cs.get now key).1 = PyVal.pynone →
      (cs.get_or_fetch now key v ttl).loader_calls = 1 ∧
      (cs.get_or_fetch now key v ttl).value = v ∧
      (((cs.get_or_fetch now key v ttl).service).get now key).1 = v) := by
  constructor
  · intro h
    rw [gof_hit cs now key v ttl h]
    exact ⟨rfl, rfl⟩
  · intro hmiss
    have hmax2 : 1 ≤ ((cs.get now key).2).local_cache.max_size := by
      rw [cs_get_eq]
      show 1 ≤ ((cs.local_cache.get now key).2).max_size
      rw [lru_get_max]
      exact hmax
    by_cases hv : v ≠ PyVal.pynone
    · rw [gof_miss_store cs now key v ttl hmiss hv]
      refine ⟨rfl, rfl, ?_⟩
      show ((({ local_cache :=
        ((cs.get now key).2).local_cache.set now key v ttl } : CacheService)).get
          now key).1 = v
      rw [cs_get_eq]
      exact lru_get_after_set _ now key v ttl httl hmax2
    · push_neg at hv
      subst hv
      rw [gof_miss_none cs now key ttl hmiss]
      exact ⟨rfl, rfl, cs_get_none_stable cs now key hmiss⟩

/-- An empty local-only cache service with local capacity 3. -/
def csEmpty : CacheService := { local_cache := emptyLRU 3 }

/-- Witness for `cacheAsideLoaderOnce` on an empty service: the key misses,
the loader runs once, and the loaded value is then readable. -/
theorem cacheAsideLoaderOnce_w :
    ((csEmpty.get 0 "k").1 ≠ PyVal.pynone →
      (csEmpty.get_or_fetch 0 "k" (PyVal.str "x") Option.none).loader_calls = 0 ∧
      (csEmpty.get_or_fetch 0 "k" (PyVal.str "x") Option.none).value =
        (csEmpty.get 0 "k").1) ∧
    ((csEmpty.get 0 "k").1 = PyVal.pynone →
      (csEmpty.get_or_fetch 0 "k" (PyVal.str "x") Option.none).loader_calls = 1 ∧
      (csEmpty.get_or_fetch 0 "k" (PyVal.str "x") Option.none).value =
        PyVal.str "x" ∧
      (((csEmpty.get_or_fetch 0 "k" (PyVal.str "x") Option.none).service).get
        0 "k").1 = PyVal.str "x") :=
  cacheAsideLoaderOnce csEmpty 0 "k" (PyVal.str "x") Option.none
    (by intro t ht; cases ht) (by decide)

/-- C10: None results are never cached and a stored None reads as absent.
On a miss with a loader returning None, `get_or_fetch` returns None, the
loader ran once, a repeated `get_or_fetch` (any loader, any ttl) runs its
loader again, and a `set` of a None value leaves `get` reading None. -/
theorem noneResultsNeverCached (cs : CacheService) (now : Int) (key : String)
    (ttl ttl' : Option Int) (w : PyVal)
    (hmiss : (cs.get now key).1 = PyVal.pynone)
    (hmax : 1 ≤ cs.local_cache.max_size) :
    (cs.get_or_fetch now key PyVal.pynone ttl).value = PyVal.pynone ∧
    (cs.get_or_fetch now key PyVal.pynone ttl).loader_calls = 1 ∧
    (((cs.get_or_fetch now key PyVal.pynone ttl).service).get_or_fetch now key
      w ttl').loader_calls = 1 ∧
    (((cs.set now key PyVal.pynone ttl).2).get now key).1 = PyVal.pynone := by
  rw [gof_miss_none cs now key ttl hmiss]
  refine ⟨rfl, rfl, ?_, ?_⟩
  · have hmiss2 : (((cs.get now key).2).get now key).1 = PyVal.pynone :=
      cs_get_none_stable cs now key hmiss
    by_cases hw : w ≠ PyVal.pynone
    · rw [gof_miss_store _ now key w ttl' hmiss2 hw]
    · push_neg at hw
      subst hw
      rw [gof_miss_none _ now key ttl' hmiss2]
  · show ((({ local_cache := cs.local_cache.set now key PyVal.pynone ttl }
        : CacheService)).get now key).1 = PyVal.pynone
    rw [cs_get_eq]
    exact lru_get_after_set_none cs.local_cache now key ttl hmax

/-- Witness for `noneResultsNeverCached` on an empty service. -/
theorem noneResultsNeverCached_w :
    (csEmpty.get_or_fetch 0 "k" PyVal.pynone Option.none).value = PyVal.pynone ∧
    (csEmpty.get_or_fetch 0 "k" PyVal.pynone Option.none).loader_calls = 1 ∧
    (((csEmpty.get_or_fetch 0 "k" PyVal.pynone Option.none).service).get_or_fetch
      0 "k" (PyVal.str "x") (some 5)).loader_calls = 1 ∧
    (((csEmpty.set 0 "k" PyVal.pynone Option.none).2).get 0 "k").1 =
      PyVal.pynone :=
  noneResultsNeverCached csEmpty 0 "k" Option.none (some 5) (PyVal.str "x")
    (by decide) (by decide)

/-! ## Context snapshot log (context_repository.py, class ContextRepository)

The DynamoDB Context table is modelled as a list of items.  The sort key
`CONTEXT#<iso-timestamp>` is modelled by a `Nat` timestamp: isoformat
timestamps sort lexicographically in creation order, so SK comparison is
numeric comparison.  A query with `scan_forward=False, limit=1` returns the
matching item with the greatest sort key.
-/

/-- One conversation message (a role/content dict). -/
structure Message where
  role : String
  content : String
  deriving DecidableEq, Repr

/-- One stored context snapshot item. -/
structure ContextItem where
  agentId : String
  sk : Nat
  conversationHistory : List Message
  agentMemory : List (String × String)
  taskState : List (String × String)
  ttl : Int
  deriving DecidableEq, Repr

/-- The matching item with the greatest sort key (the head of a descending
query), if any. -/
def latestOf : List ContextItem → Option ContextItem
  | [] => Option.none
  | it :: rest =>
    match latestOf rest with
    | Option.none => some it
    | some b => if it.sk < b.sk then some b else some it

/-- Embeds `ContextRepository.get_latest_context`: query
`PK = AGENT#agent_id`, `SK begins_with CONTEXT#`, descending, `limit=1`.
Note: there is no TTL condition anywhere in this read path. -/
def get_latest_context (store : List ContextItem) (agent_id : String) :
    Option ContextItem :=
  latestOf (store.filter (fun it => it.agentId == agent_id))

/-- Embeds `ContextRepository.put_context`: build the item (TTL epoch and
timestamp are inputs here, where the code reads the wall clock) and put it,
returning the item as stored. -/
def put_context (store : List ContextItem) (agent_id : String)
    (conversation_history : List Message)
    (agent_memory task_state : List (String × String)) (ttl_epoch : Int)
    (timestamp : Nat) : ContextItem × List ContextItem :=
  let item : ContextItem :=
    { agentId := agent_id, sk := timestamp,
      conversationHistory := conversation_history,
      agentMemory := agent_memory, taskState := task_state,
      ttl := ttl_epoch }
  (item, store ++ [item])

/-- The `if latest:` defaulting of `append_messages`: history from the
latest snapshot, or `[]`. -/
def histOf : Option ContextItem → List Message
  | some l => l.conversationHistory
  | Option.none => []

/-- Memory from the latest snapshot, or `{}`. -/
def memOf : Option ContextItem → List (String × String)
  | some l => l.agentMemory
  | Option.none => []

/-- Task state from the latest snapshot, or `{}`. -/
def taskOf : Option ContextItem → List (String × String)
  | some l => l.taskState
  | Option.none => []

/-- Embeds the Python slice `history[-k:]` used for the tail check.  For
`k = 0` Python's `-0` is `0`, so the slice is the whole list. -/
def pyTail (l : List Message) (k : Nat) : List Message :=
  if k = 0 then l else l.drop (l.length - k)

/-- The concurrent environment of one `append_messages` call: the timestamp
our write uses in attempt `i` (1-based), and the items concurrent writers
insert between our write and our verify read of attempt `i`. -/
structure AppendEnv where
  writeTs : Nat → Nat
  interfere : Nat → List ContextItem

/-- Embeds the `for _ in range(max_retries)` loop of
`ContextRepository.append_messages`, by remaining attempts (`n`) and 1-based
attempt index (`i`).  Each attempt reads the latest snapshot, writes the
merged snapshot, re-reads, and returns on a missing read, on seeing its own
write, or on seeing a snapshot whose history tail already equals
`messages`; otherwise it retries.  At exhaustion it returns the last
written item; the fresh-snapshot fallback runs only when no attempt wrote
(`written is None`). -/
def appendLoop (env : AppendEnv) (agent_id : String) (messages : List Message)
    (ttl : Int) : Nat → Nat → List ContextItem → Option ContextItem →
    ContextItem × List ContextItem
  | 0, _i, store, written =>
    match written with
    | Option.none =>
      put_context store agent_id messages [] [] ttl (env.writeTs 0)
    | some w => (w, store)
  | n + 1, i, store, _written =>
    let latest := get_latest_context store agent_id
    let wr := put_context store agent_id (histOf latest ++ messages)
      (memOf latest) (taskOf latest) ttl (env.writeTs i)
    let store2 := wr.2 ++ env.interfere i
    match get_latest_context store2 agent_id with
    | Option.none => (wr.1, store2)
    | some latest_after =>
      if latest_after.sk = wr.1.sk then (wr.1, store2)
      else
        if messages.length ≤ latest_after.conversationHistory.length ∧
            pyTail latest_after.conversationHistory messages.length =
              messages then
          (latest_after, store2)
        else
          appendLoop env agent_id messages ttl n (i + 1) store2 (some wr.1)

/-- Embeds `ContextRepository.append_messages` (`max_retries = 3`). -/
def append_messages (env : AppendEnv) (store : List ContextItem)
    (agent_id : String) (messages : List Message) (ttl : Int) :
    ContextItem × List ContextItem :=
  appendLoop env agent_id messages ttl 3 1 store Option.none

theorem latestOf_mem : ∀ (l : List ContextItem) (b : ContextItem),
    latestOf l = some b → b ∈ l := by
  intro l
  induction l with
  | nil => intro b h; cases h
  | cons a rest ih =>
    intro b h
    rw [latestOf] at h
    cases hr : latestOf rest with
    | none =>
      simp only [hr] at h
      cases h
      exact List.mem_cons_self a rest
    | some c =>
      simp only [hr] at h
      by_cases hlt : a.sk < c.sk
      · rw [if_pos hlt] at h
        cases h
        exact List.mem_cons_of_mem a (ih _ hr)
      · rw [if_neg hlt] at h
        cases h
        exact List.mem_cons_self a rest

theorem latestOf_max (it : ContextItem) :
    ∀ l : List ContextItem, it ∈ l →
    (∀ x ∈ l, x ≠ it → x.sk < it.sk) → latestOf l = some it := by
  intro l
  induction l with
  | nil => intro h; cases h
  | cons a rest ih =>
    intro hmem hmax
    rw [latestOf]
    rcases List.mem_cons.1 hmem with heq | hrest
    · subst heq
      cases hr : latestOf rest with
      | none => simp only [hr]
      | some b =>
        simp only [hr]
        have hb : b ∈ rest := latestOf_mem rest b hr
        by_cases hba : b = it
        · subst hba
          rw [if_neg (by omega)]
        · have := hmax b (List.mem_cons_of_mem it hb) hba
          rw [if_neg (by omega)]
    · have hlat := ih hrest
        (fun x hx hne => hmax x (List.mem_cons_of_mem a hx) hne)
      simp only [hlat]
      by_cases hae : a = it
      · subst hae
        rw [if_neg (by omega)]
      · have := hmax a (List.mem_cons_self a rest) hae
        rw [if_pos this]

/-- C2 amended: `get_latest_context` returns the matching snapshot with the
greatest sequence key irrespective of its TTL: a snapshot still physically
present whose TTL is already in the past (`ttl < now`) is returned, not
treated as absent — there is no read-side expiry check. -/
theorem getLatestIgnoresTtl (store : List ContextItem) (agent_id : String)
    (it : ContextItem) (now : Int) (hmem : it ∈ store)
    (hag : it.agentId = agent_id)
    (hmax : ∀ x ∈ store, x.agentId = agent_id → x ≠ it → x.sk < it.sk)
    (hexp : it.ttl < now) :
    get_latest_context store agent_id = some it := by
  unfold get_latest_context
  apply latestOf_max
  · exact List.mem_filter.2 ⟨hmem, by simp [hag]⟩
  · intro x hx hne
    have hx' := List.mem_filter.1 hx
    exact hmax x hx'.1 (by simpa using hx'.2) hne

/-- A snapshot whose TTL (5) is far in the past at read time 100. -/
def expiredItem : ContextItem :=
  { agentId := "agent-1", sk := 10,
    conversationHistory := [{ role := "user", content := "hi" }],
    agentMemory := [], taskState := [], ttl := 5 }

/-- C2 counterexample: a store holding a single logically expired snapshot
(TTL 5, current time 100).  `get_latest_context` returns it instead of
treating it as absent: there is no defensive read-side TTL check. -/
theorem expiredSnapshotReturned_cx :
    get_latest_context [expiredItem] "agent-1" = some expiredItem ∧
    expiredItem.ttl < 100 := ⟨rfl, by decide⟩

/-- Witness for `getLatestIgnoresTtl` on the same concrete store. -/
theorem getLatestIgnoresTtl_w :
    get_latest_context [expiredItem] "agent-1" = some expiredItem :=
  getLatestIgnoresTtl [expiredItem] "agent-1" expiredItem 100
    (by decide) (by decide) (by decide) (by decide)

/-- The store visible to the verify read of attempt `i` (and to the first
read of attempt `i+1`): attempt `i`'s write plus the interference of
attempt `i`.  Index 0 is the initial store. -/
def attemptStore (env : AppendEnv) (agent_id : String)
    (messages : List Message) (ttl : Int) (store : List ContextItem) :
    Nat → List ContextItem
  | 0 => store
  | i + 1 =>
    let s := attemptStore env agent_id messages ttl store i
    let latest := get_latest_context s agent_id
    (put_context s agent_id (histOf latest ++ messages) (memOf latest)
      (taskOf latest) ttl (env.writeTs (i + 1))).2 ++ env.interfere (i + 1)

/-- The snapshot written by attempt `i` (1-based). -/
def writtenAt (env : AppendEnv) (agent_id : String) (messages : List Message)
    (ttl : Int) (store : List ContextItem) (i : Nat) : ContextItem :=
  let s := attemptStore env agent_id messages ttl store (i - 1)
  let latest := get_latest_context s agent_id
  (put_context s agent_id (histOf latest ++ messages) (memOf latest)
    (taskOf latest) ttl (env.writeTs i)).1

/-- Attempt `i` detects a genuine conflicting interleave: its verify read
returns a snapshot with a different sequence key whose history tail does
not already equal `messages`. -/
def conflictAt (env : AppendEnv) (agent_id : String) (messages : List Message)
    (ttl : Int) (store : List ContextItem) (i : Nat) : Prop :=
  match get_latest_context (attemptStore env agent_id messages ttl store i)
      agent_id with
  | Option.none => False
  | some la =>
    ¬ la.sk = (writtenAt env agent_id messages ttl store i).sk ∧
    ¬ (messages.length ≤ la.conversationHistory.length ∧
       pyTail la.conversationHistory messages.length = messages)

instance conflictAtDecidable (env : AppendEnv) (agent_id : String)
    (messages : List Message) (ttl : Int) (store : List ContextItem)
    (i : Nat) : Decidable (conflictAt env agent_id messages ttl store i) := by
  unfold conflictAt
  cases get_latest_context (attemptStore env agent_id messages ttl store i)
    agent_id
  · exact isFalse (fun h => h)
  · exact inferInstance

theorem attemptStore_succ (env : AppendEnv) (agent_id : String)
    (messages : List Message) (ttl : Int) (store : List ContextItem)
    (i : Nat) :
    attemptStore env agent_id messages ttl store (i + 1) =
      (put_context (attemptStore env agent_id messages ttl store i) agent_id
        (histOf (get_latest_context
          (attemptStore env agent_id messages ttl store i) agent_id) ++
            messages)
        (memOf (get_latest_context
          (attemptStore env agent_id messages ttl store i) agent_id))
        (taskOf (get_latest_context
          (attemptStore env agent_id messages ttl store i) agent_id))
        ttl (env.writeTs (i + 1))).2 ++ env.interfere (i + 1) := rfl

theorem writtenAt_succ (env : AppendEnv) (agent_id : String)
    (messages : List Message) (ttl : Int) (store : List ContextItem)
    (i : Nat) :
    writtenAt env agent_id messages ttl store (i + 1) =
      (put_context (attemptStore env agent_id messages ttl store i) agent_id
        (histOf (get_latest_context
          (attemptStore env agent_id messages ttl store i) agent_id) ++
            messages)
        (memOf (get_latest_context
          (attemptStore env agent_id messages ttl store i) agent_id))
        (taskOf (get_latest_context
          (attemptStore env agent_id messages ttl store i) agent_id))
        ttl (env.writeTs (i + 1))).1 := rfl

/-- One conflicting attempt steps the loop to the next attempt. -/
theorem appendLoop_conflict_step (env : AppendEnv) (agent_id : String)
    (messages : List Message) (ttl : Int) (n i : Nat)
    (w : Option ContextItem)
    (hconf : conflictAt env agent_id messages ttl store (i + 1)) :
    appendLoop env agent_id messages ttl (n + 1) (i + 1)
        (attemptStore env agent_id messages ttl store i) w =
      appendLoop env agent_id messages ttl n (i + 2)
        (attemptStore env agent_id messages ttl store (i + 1))
        (some (writtenAt env agent_id messages ttl store (i + 1))) := by
  rw [appendLoop]
  simp only [← attemptStore_succ env agent_id messages ttl store i,
    ← writtenAt_succ env agent_id messages ttl store i]
  unfold conflictAt at hconf
  cases hla : get_latest_context
      (attemptStore env agent_id messages ttl store (i + 1)) agent_id with
  | none => rw [hla] at hconf; exact absurd hconf (by simp)
  | some la =>
    rw [hla] at hconf
    simp only [hla]
    rw [if_neg hconf.1, if_neg hconf.2]

/-- C3 amended: when every one of the 3 optimistic attempts detects a
genuine conflicting interleave, `append_messages` returns the snapshot its
third attempt wrote — whose history is the latest history read in that
attempt extended with `newMessages` — and does not write a fresh snapshot
containing `newMessages` alone (that fallback branch requires `written is
None`, impossible once any attempt ran). -/
theorem appendExhaustedReturnsLastWritten (env : AppendEnv)
    (store : List ContextItem) (agent_id : String) (messages : List Message)
    (ttl : Int)
    (h1 : conflictAt env agent_id messages ttl store 1)
    (h2 : conflictAt env agent_id messages ttl store 2)
    (h3 : conflictAt env agent_id messages ttl store 3) :
    append_messages env store agent_id messages ttl =
      (writtenAt env agent_id messages ttl store 3,
       attemptStore env agent_id messages ttl store 3) ∧
    (writtenAt env agent_id messages ttl store 3).conversationHistory =
      histOf (get_latest_context
        (attemptStore env agent_id messages ttl store 2) agent_id) ++
        messages := by
  refine ⟨?_, rfl⟩
  show appendLoop env agent_id messages ttl 3 1
    (attemptStore env agent_id messages ttl store 0) Option.none = _
  rw [appendLoop_conflict_step env agent_id messages ttl 2 0 Option.none h1,
    appendLoop_conflict_step env agent_id messages ttl 1 1 _ h2,
    appendLoop_conflict_step env agent_id messages ttl 0 2 _ h3]
  rfl

/-- The initial store for the C3 counterexample: one earlier snapshot. -/
def cxStore0 : List ContextItem :=
  [{ agentId := "a", sk := 10,
     conversationHistory := [{ role := "user", content := "x" }],
     agentMemory := [], taskState := [], ttl := 9999 }]

/-- An adversary that interleaves a conflicting one-message snapshot after
each of the three writes (sort keys 30, 50, 70 against writes 20, 40, 60). -/
def cxEnv : AppendEnv :=
  { writeTs := fun i => i * 20,
    interfere := fun i =>
      if i = 1 then
        [{ agentId := "a", sk := 30,
           conversationHistory := [{ role := "user", content := "y" }],
           agentMemory := [], taskState := [], ttl := 9999 }]
      else if i = 2 then
        [{ agentId := "a", sk := 50,
           conversationHistory := [{ role := "user", content := "z" }],
           agentMemory := [], taskState := [], ttl := 9999 }]
      else if i = 3 then
        [{ agentId := "a", sk := 70,
           conversationHistory := [{ role := "user", content := "w" }],
           agentMemory := [], taskState := [], ttl := 9999 }]
      else [] }

/-- C3 counterexample: with a conflicting interleave at every attempt, the
exhausted `append_messages` does NOT fall back to a fresh snapshot holding
`newMessages` alone: it returns its third attempt's write, whose history is
the conflicting snapshot's history `[z]` extended with the new message. -/
theorem appendFallback_cx :
    (append_messages cxEnv cxStore0 "a" [{ role := "user", content := "m" }]
        9999).1.conversationHistory =
      [{ role := "user", content := "z" }, { role := "user", content := "m" }] ∧
    ¬ (append_messages cxEnv cxStore0 "a" [{ role := "user", content := "m" }]
        9999).1.conversationHistory =
      [{ role := "user", content := "m" }] := by
  exact ⟨rfl, by decide⟩

/-- Witness for `appendExhaustedReturnsLastWritten` under the concrete
adversary `cxEnv`. -/
theorem appendExhaustedReturnsLastWritten_w :
    append_messages cxEnv cxStore0 "a" [{ role := "user", content := "m" }]
        9999 =
      (writtenAt cxEnv "a" [{ role := "user", content := "m" }] 9999 cxStore0 3,
       attemptStore cxEnv "a" [{ role := "user", content := "m" }] 9999
         cxStore0 3) ∧
    (writtenAt cxEnv "a" [{ role := "user", content := "m" }] 9999
        cxStore0 3).conversationHistory =
      histOf (get_latest_context
        (attemptStore cxEnv "a" [{ role := "user", content := "m" }] 9999
          cxStore0 2) "a") ++ [{ role := "user", content := "m" }] :=
  appendExhaustedReturnsLastWritten cxEnv cxStore0 "a"
    [{ role := "user", content := "m" }] 9999
    (by decide) (by decide) (by decide)

end Realtime
